import Mathlib

/-!
Shallow embedding of the CustomTween playback controller (src/src/index.ts)
and the Cancel routine of the BezierTween variant (the second source file).

Time and property components are modelled as rationals; easing functions as
plain functions on the rationals.  The per-frame Heartbeat callback becomes a
pure `heartbeat` step, the spawned delay thread becomes the `delayDone` event
(the resumption of `task.wait(delay)`), and the `TweenService` blend primitive
is modelled as immediately writing the synthesized property set onto the
target instance.  The emitted "samples" recorded by a run are the shaped
progress values handed to value synthesis, one per drained step.
-/

/-- `Enum.PlaybackState`. -/
inductive PlayState where
  | Begin | Delayed | Playing | Paused | Completed | Cancelled
deriving DecidableEq, Repr

/-- The five natively blendable value kinds, dispatched by the
`["CFrame", "Color3", "UDim2", "Vector2", "Vector3"].includes(typeOf ...)`
branch of `getCurrentProperties`.  Their components are modelled as an
opaque list of rationals with componentwise `Lerp`. -/
inductive NativeKind where
  | cframe | color3 | udim2 | vector2 | vector3
deriving DecidableEq, Repr

/-- Runtime values a tweened property can hold.  `unsupported` stands for any
runtime type that matches none of the cases in `getCurrentProperties`
(e.g. a string or an EnumItem). -/
inductive TValue where
  | native (k : NativeKind) (comps : List ℚ)
  | num (x : ℚ)
  | boolean (b : Bool)
  | rect (minX minY maxX maxY : ℚ)
  | udim (scale offset : ℚ)
  | vector2int16 (x y : ℤ)
  | unsupported (tag : String)
deriving DecidableEq, Repr

/-- Association-list lookup, modelling reading `table[key]` in Luau. -/
def lookupTV : List (String × TValue) → String → Option TValue
  | [], _ => none
  | (k, v) :: rest, q => if k = q then some v else lookupTV rest q

/-- Association-list update, modelling writing `table[key] = value`. -/
def setKey : List (String × TValue) → String → TValue → List (String × TValue)
  | [], k, v => [(k, v)]
  | (k', v') :: rest, k, v =>
      if k' = k then (k, v) :: rest else (k', v') :: setKey rest k v

/-- Write every pair of `l` into `m` in order, modelling the
`for ([property, setting] of pairs(...)) Instance[property] = setting` loops. -/
def writeAll (l m : List (String × TValue)) : List (String × TValue) :=
  l.foldl (fun acc kv => setKey acc kv.1 kv.2) m

/-- `lerp = (a, b) => a + progress * (b - a)` from `getCurrentProperties`. -/
def lerpQ (p a b : ℚ) : ℚ := a + p * (b - a)

/-- Rounding applied by the `Vector2int16` constructor to its arguments. -/
def i16 (q : ℚ) : ℤ := ⌊q + 1/2⌋

/-- One property of `getCurrentProperties` (src/src/index.ts lines 66-99):
dispatch on the runtime type of the target setting.  `none` means the
property is left unassigned in the `current` table: this is what happens in
the source when the target's type matches no case (the `switch` has no
default), and also stands in for the cases where the initial snapshot is
absent or of a different runtime type (where the source would misbehave at
runtime; no claim exercises those). -/
def interpStep (p : ℚ) (initOpt : Option TValue) (tgt : TValue) : Option TValue :=
  match tgt with
  | TValue.native k tc =>
      match initOpt with
      | some (TValue.native k' ic) =>
          if k' = k then some (TValue.native k (List.zipWith (lerpQ p) ic tc)) else none
      | _ => none
  | TValue.num b =>
      match initOpt with
      | some (TValue.num a) => some (TValue.num (lerpQ p a b))
      | _ => none
  | TValue.boolean _ => if p = 1 then some tgt else initOpt
  | TValue.rect tmx tmy tMx tMy =>
      match initOpt with
      | some (TValue.rect imx imy iMx iMy) =>
          some (TValue.rect (lerpQ p imx tmx) (lerpQ p imy tmy)
                            (lerpQ p iMx tMx) (lerpQ p iMy tMy))
      | _ => none
  | TValue.udim tSc tOf =>
      match initOpt with
      | some (TValue.udim iSc iOf) =>
          some (TValue.udim (lerpQ p iSc tSc) (lerpQ p iOf tOf))
      | _ => none
  | TValue.vector2int16 tx ty =>
      match initOpt with
      | some (TValue.vector2int16 ix iy) =>
          some (TValue.vector2int16 (i16 (lerpQ p (ix : ℚ) (tx : ℚ)))
                                    (i16 (lerpQ p (iy : ℚ) (ty : ℚ))))
      | _ => none
  | TValue.unsupported _ => none

/-- The `current` table built by `getCurrentProperties`: iterate the target
properties, interpolating each against the initial snapshot; properties whose
interpolation assigns nothing are absent from the result. -/
def synthProps (p : ℚ) (init : List (String × TValue)) :
    List (String × TValue) → List (String × TValue)
  | [] => []
  | (k, t) :: rest =>
      match interpStep p (lookupTV init k) t with
      | some v => (k, v) :: synthProps p init rest
      | none => synthProps p init rest

/-- The fields of a `CustomTween<T>` object, together with the target
instance's current property values and a `pendingWait` marker recording a
spawned `task.wait(delay)` that has not yet resumed. -/
structure CTState where
  active : Bool
  delay : ℚ
  easing : ℚ → ℚ
  targetProperties : List (String × TValue)
  initial : List (String × TValue)
  progress : ℕ
  precision : ℕ
  repeatsRemaining : ℤ
  reverses : Bool
  reversing : Bool
  time : ℚ
  timeElapsed : ℚ
  tweenTime : ℚ
  connected : Bool
  pendingWait : Option ℚ
  PlaybackState : PlayState
  instanceProps : List (String × TValue)

/-- `getCurrentProperties(progress)` of CustomTween. -/
def getCurrentProperties (s : CTState) (p : ℚ) : List (String × TValue) :=
  synthProps p s.initial s.targetProperties

/-- `Cancel()` (src/src/index.ts lines 105-112): set `Cancelled` only when the
state is still `Begin`, drop the connection, zero the counters, and write the
initial snapshot back onto the instance. -/
def cancelM (s : CTState) : CTState :=
  let s :=
    if s.PlaybackState = PlayState.Begin then
      { s with PlaybackState := PlayState.Cancelled }
    else s
  { s with connected := false, progress := 0, timeElapsed := 0,
           instanceProps := writeAll s.initial s.instanceProps }

/-- `Destroy()` (lines 114-117). -/
def destroyM (s : CTState) : CTState :=
  { s with connected := false, active := false }

/-- `Pause()` (lines 119-134): no-op in `Begin`, `Cancelled`, `Completed` or
`Delayed`; otherwise become `Paused`, drop the connection and discard the
accumulated sub-step time. -/
def pauseM (s : CTState) : CTState :=
  if s.PlaybackState = PlayState.Begin ∨ s.PlaybackState = PlayState.Cancelled ∨
     s.PlaybackState = PlayState.Completed ∨ s.PlaybackState = PlayState.Delayed
  then s
  else { s with PlaybackState := PlayState.Paused, connected := false, timeElapsed := 0 }

/-- The synchronous effect of `Play()` (lines 136-148): guard on `active` and
on already being `Playing`/`Delayed`; then the spawned thread either parks in
`Delayed` awaiting `task.wait(delay)` (when `delay > 0`) or immediately sets
`Playing` and connects the Heartbeat callback. -/
def playM (s : CTState) : CTState :=
  if s.active = false then s
  else if s.PlaybackState = PlayState.Playing ∨ s.PlaybackState = PlayState.Delayed then s
  else if 0 < s.delay then
    { s with PlaybackState := PlayState.Delayed, pendingWait := some s.delay }
  else { s with PlaybackState := PlayState.Playing, connected := true }

/-- The resumption of the spawned thread after `task.wait(delay)` returns
(lines 144-149): unconditionally set `Playing` and connect.  The source does
not re-check `active` or the playback state after the wait. -/
def delayDoneM (s : CTState) : CTState :=
  match s.pendingWait with
  | none => s
  | some _ =>
      { s with pendingWait := none, PlaybackState := PlayState.Playing, connected := true }

/-- The `progress > precision` block of the Heartbeat callback
(lines 152-164).  Returns the new state and how many pass completions
happened (`1` exactly when the `Completed` branch ran). -/
def passEnd (s : CTState) : CTState × ℕ :=
  if s.reverses = true ∧ s.reversing = false then
    ({ s with progress := 0, reversing := true }, 0)
  else
    let s' := { s with connected := false, PlaybackState := PlayState.Completed,
                       progress := 0,
                       repeatsRemaining :=
                         if 0 ≤ s.repeatsRemaining then s.repeatsRemaining - 1
                         else s.repeatsRemaining,
                       reversing := false }
    (if s'.repeatsRemaining = 0 then s' else playM s', 1)

/-- Fuel bound for the sample-draining loop: the number of whole sample
durations currently accumulated.  (When `tweenTime ≤ 0` the source loop would
never terminate; no claim reaches that configuration and the model drains
nothing there.) -/
def fuelFor (s : CTState) : ℕ :=
  if s.tweenTime ≤ 0 then 0 else (⌊s.timeElapsed / s.tweenTime⌋).toNat

/-- The `while (timeElapsed >= tweenTime)` loop (lines 166-176): re-check the
playback state each iteration, subtract one sample duration, synthesize the
property set at the shaped progress and hand it to the blend primitive
(modelled as writing it onto the instance), then advance `progress`.  The
returned list accumulates the shaped progress value of every emitted sample. -/
def drain : ℕ → CTState → List ℚ → CTState × List ℚ
  | 0, s, out => (s, out)
  | n + 1, s, out =>
      if s.timeElapsed < s.tweenTime then (s, out)
      else if s.PlaybackState ≠ PlayState.Playing ∨ s.active = false then (s, out)
      else
        let x : ℚ := (s.progress : ℚ) / (s.precision : ℚ)
        let p := s.easing (if s.reversing = true then 1 - x else x)
        let s' := { s with timeElapsed := s.timeElapsed - s.tweenTime,
                           instanceProps := writeAll (getCurrentProperties s p) s.instanceProps,
                           progress := s.progress + 1 }
        drain n s' (out ++ [p])

/-- One invocation of the Heartbeat callback (lines 149-177) with elapsed
time `dt`: bail out if inactive, accumulate time, run the end-of-pass block
if `progress` exceeds `precision`, then drain whole sample intervals. -/
def heartbeat (s : CTState) (dt : ℚ) : CTState × List ℚ × ℕ :=
  if s.active = false then (s, [], 0)
  else
    let s1 := { s with timeElapsed := s.timeElapsed + dt }
    let r2 := if s1.precision < s1.progress then passEnd s1 else (s1, 0)
    let r3 := drain (fuelFor r2.1) r2.1 []
    (r3.1, r3.2, r2.2)

/-- The events that can reach a controller: a Heartbeat pulse (delivered only
while the connection is live), the delay wait resuming, and the four public
methods. -/
inductive TEvent where
  | tick (dt : ℚ)
  | delayDone
  | play
  | pause
  | cancel
  | destroy
deriving DecidableEq

/-- Apply one event; returns the new state, the shaped progress values of the
samples emitted, and the number of pass completions. -/
def applyEvent (s : CTState) : TEvent → CTState × List ℚ × ℕ
  | TEvent.tick dt => if s.connected = true then heartbeat s dt else (s, [], 0)
  | TEvent.delayDone => (delayDoneM s, [], 0)
  | TEvent.play => (playM s, [], 0)
  | TEvent.pause => (pauseM s, [], 0)
  | TEvent.cancel => (cancelM s, [], 0)
  | TEvent.destroy => (destroyM s, [], 0)

/-- Run a list of events, accumulating emitted samples and completions. -/
def runEvents (s : CTState) : List TEvent → CTState × List ℚ × ℕ
  | [] => (s, [], 0)
  | e :: es =>
      let r1 := applyEvent s e
      let r2 := runEvents r1.1 es
      (r2.1, r1.2.1 ++ r2.2.1, r1.2.2 + r2.2.2)

/-- Run a list of Heartbeat deltas. -/
def runTicks (s : CTState) (dts : List ℚ) : CTState × List ℚ × ℕ :=
  runEvents s (dts.map TEvent.tick)

/-- The constructor's arguments (`instance`, `tweenInfo`, `targetProperties`,
`precision`), with the optional `CustomTweenInfo` fields kept optional. -/
structure CTorArgs where
  instanceProps : List (String × TValue)
  timeOpt : Option ℚ
  easing : ℚ → ℚ
  repeatCountOpt : Option ℤ
  reversesOpt : Option Bool
  delayTimeOpt : Option ℚ
  targetProperties : List (String × TValue)
  precision : ℕ

/-- The observable steps of the constructor body, in source order
(src/src/index.ts lines 46-58). -/
inductive CtorStep where
  | easingSet | instanceSet | timeSet | targetSet | delaySet
  | precisionSet | repeatsSet | reversesSet | tweenTimeSet | snapshotTaken
deriving DecidableEq, Repr

/-- The `initial` snapshot loop (lines 57-58): read each target-property key
off the live instance.  Reading a key the instance does not have raises in
Roblox, modelled as `none`. -/
def snapshotProps : List (String × TValue) → List (String × TValue) →
    Option (List (String × TValue))
  | [], _ => some []
  | (k, _) :: rest, inst =>
      match lookupTV inst k, snapshotProps rest inst with
      | some v, some r => some ((k, v) :: r)
      | _, _ => none

/-- The constructor (lines 45-59).  Returns the trace of steps executed
before returning or raising, and either the constructed state or the error.
The negative-delay check sits on line 51, after `easing`, `Instance`, `time`
and `targetProperties` have been assigned and before everything else. -/
def mkCustomTween (a : CTorArgs) : List CtorStep × Except String CTState :=
  let t := a.timeOpt.getD 1
  let d := a.delayTimeOpt.getD 0
  let rc := a.repeatCountOpt.getD 0
  if d < 0 then
    ([CtorStep.easingSet, CtorStep.instanceSet, CtorStep.timeSet, CtorStep.targetSet],
     Except.error "Delay cannot be negative")
  else
    match snapshotProps a.targetProperties a.instanceProps with
    | none =>
        ([CtorStep.easingSet, CtorStep.instanceSet, CtorStep.timeSet, CtorStep.targetSet,
          CtorStep.delaySet, CtorStep.precisionSet, CtorStep.repeatsSet,
          CtorStep.reversesSet, CtorStep.tweenTimeSet],
         Except.error "is not a valid member")
    | some init =>
        ([CtorStep.easingSet, CtorStep.instanceSet, CtorStep.timeSet, CtorStep.targetSet,
          CtorStep.delaySet, CtorStep.precisionSet, CtorStep.repeatsSet,
          CtorStep.reversesSet, CtorStep.tweenTimeSet, CtorStep.snapshotTaken],
         Except.ok
           { active := true
             delay := d
             easing := a.easing
             targetProperties := a.targetProperties
             initial := init
             progress := 0
             precision := a.precision
             repeatsRemaining := 1 + (if rc < 0 then (-1 : ℤ) else rc)
             reverses := a.reversesOpt.getD false
             reversing := false
             time := t
             timeElapsed := 0
             tweenTime := t / (a.precision : ℚ)
             connected := false
             pendingWait := none
             PlaybackState := PlayState.Begin
             instanceProps := a.instanceProps })

/-- A throwaway controller state used as the default when destructuring a
constructor result that is known to have succeeded. -/
def ctDefault : CTState :=
  { active := true, delay := 0, easing := fun _ => 0, targetProperties := [],
    initial := [], progress := 0, precision := 1, repeatsRemaining := 1,
    reverses := false, reversing := false, time := 1, timeElapsed := 0,
    tweenTime := 1, connected := false, pendingWait := none,
    PlaybackState := PlayState.Begin, instanceProps := [] }

/-- The successfully constructed state of `mkCustomTween`. -/
def mkOkCT (a : CTorArgs) : CTState :=
  ((mkCustomTween a).2.toOption).getD ctDefault

/-- The fields of the BezierTween variant (second source file) that its
`Cancel` touches. -/
structure BTState where
  PlaybackState : PlayState
  connected : Bool
  progress : ℕ
  total : ℚ
  initial : List (String × TValue)
  instanceProps : List (String × TValue)

/-- BezierTween's `Cancel()` (second source file, lines 80-86): always set
`Cancelled`, drop the connection, zero the counters and restore the initial
snapshot via `reset()`. -/
def btCancel (s : BTState) : BTState :=
  { s with PlaybackState := PlayState.Cancelled, connected := false,
           progress := 0, total := 0,
           instanceProps := writeAll s.initial s.instanceProps }

/-- The shaped progress values of a forward pass: the loop feeds
`easing(progress / precision)` for `progress = 0, 1, ..., precision`
before the end-of-pass check fires. -/
def fwdSamples (f : ℚ → ℚ) (R : ℕ) : List ℚ :=
  (List.range (R + 1)).map (fun i : ℕ => f ((i : ℚ) / (R : ℚ)))

/-- The shaped progress values of a reverse pass: `easing(1 - i/precision)`
for `i = 0, 1, ..., precision`. -/
def revSamples (f : ℚ → ℚ) (R : ℕ) : List ℚ :=
  (List.range (R + 1)).map (fun i : ℕ => f (1 - (i : ℚ) / (R : ℚ)))

/-- All samples of one pass-pair: the forward pass, then the reverse pass
when `reverses` is set. -/
def passSamples (f : ℚ → ℚ) (R : ℕ) (b : Bool) : List ℚ :=
  fwdSamples f R ++ if b then revSamples f R else []

/-- Whether an initial/target value pair is matched and supported: same
runtime type, drawn from the types `getCurrentProperties` handles, with
agreeing component counts for the natively blendable kinds. -/
def matchedVal : TValue → TValue → Bool
  | TValue.native k a, TValue.native k' b =>
      decide (k = k') && decide (a.length = b.length)
  | TValue.num _, TValue.num _ => true
  | TValue.boolean _, TValue.boolean _ => true
  | TValue.rect _ _ _ _, TValue.rect _ _ _ _ => true
  | TValue.udim _ _, TValue.udim _ _ => true
  | TValue.vector2int16 _ _, TValue.vector2int16 _ _ => true
  | _, _ => false

/-- Pointwise alignment of the initial snapshot with the target properties:
same keys in the same order, every pair matched and supported. -/
def alignedOk : List (String × TValue) → List (String × TValue) → Bool
  | [], [] => true
  | (k, i) :: is, (k', t) :: ts =>
      decide (k = k') && matchedVal i t && alignedOk is ts
  | _, _ => false

section AssocLemmas

theorem lookupTV_setKey_self (m : List (String × TValue)) (k : String) (v : TValue) :
    lookupTV (setKey m k v) k = some v := by
  induction m with
  | nil => simp [setKey, lookupTV]
  | cons hd tl ih =>
      obtain ⟨k', v'⟩ := hd
      by_cases h : k' = k
      · simp [setKey, h, lookupTV]
      · simp [setKey, h, lookupTV, ih]

theorem lookupTV_setKey_other (m : List (String × TValue)) (k q : String) (v : TValue)
    (h : q ≠ k) : lookupTV (setKey m k v) q = lookupTV m q := by
  have hkq : ¬ (k = q) := fun hh => h hh.symm
  induction m with
  | nil => simp [setKey, lookupTV, hkq]
  | cons hd tl ih =>
      obtain ⟨k', v'⟩ := hd
      by_cases hk : k' = k
      · subst hk
        simp [setKey, lookupTV, hkq]
      · simp [setKey, hk, lookupTV, ih]

theorem writeAll_nil (m : List (String × TValue)) : writeAll [] m = m := rfl

theorem writeAll_cons (k : String) (v : TValue) (l m : List (String × TValue)) :
    writeAll ((k, v) :: l) m = writeAll l (setKey m k v) := rfl

theorem writeAll_lookup_notmem (l : List (String × TValue)) (m : List (String × TValue))
    (k : String) (h : k ∉ l.map Prod.fst) : lookupTV (writeAll l m) k = lookupTV m k := by
  induction l generalizing m with
  | nil => simp [writeAll_nil]
  | cons hd tl ih =>
      obtain ⟨k', v'⟩ := hd
      rw [writeAll_cons]
      simp only [List.map_cons, List.mem_cons] at h
      push_neg at h
      rw [ih _ h.2, lookupTV_setKey_other _ _ _ _ h.1]

theorem writeAll_lookup_mem (l : List (String × TValue)) (m : List (String × TValue))
    (k : String) (hnd : (l.map Prod.fst).Nodup) (h : k ∈ l.map Prod.fst) :
    lookupTV (writeAll l m) k = lookupTV l k := by
  induction l generalizing m with
  | nil => simp at h
  | cons hd tl ih =>
      obtain ⟨k', v'⟩ := hd
      rw [writeAll_cons]
      simp only [List.map_cons, List.nodup_cons] at hnd
      simp only [List.map_cons, List.mem_cons] at h
      by_cases hk : k = k'
      · subst hk
        rw [writeAll_lookup_notmem _ _ _ hnd.1, lookupTV_setKey_self]
        simp [lookupTV]
      · have hk' : ¬ (k' = k) := fun hh => hk hh.symm
        have hmem : k ∈ tl.map Prod.fst := h.resolve_left hk
        rw [ih _ hnd.2 hmem]
        simp [lookupTV, hk']

theorem snapshotProps_keys (tp inst init : List (String × TValue))
    (h : snapshotProps tp inst = some init) :
    init.map Prod.fst = tp.map Prod.fst := by
  induction tp generalizing init with
  | nil =>
      simp [snapshotProps] at h
      subst h; rfl
  | cons hd tl ih =>
      obtain ⟨k, t⟩ := hd
      rw [snapshotProps] at h
      cases hl : lookupTV inst k with
      | none => rw [hl] at h; simp at h
      | some v =>
          rw [hl] at h
          cases hr : snapshotProps tl inst with
          | none => rw [hr] at h; simp at h
          | some r =>
              rw [hr] at h
              simp only [Option.some.injEq] at h
              subst h
              simp [ih r hr]

theorem snapshotProps_lookup (tp inst init : List (String × TValue))
    (h : snapshotProps tp inst = some init) (hnd : (tp.map Prod.fst).Nodup) :
    ∀ k ∈ tp.map Prod.fst, lookupTV init k = lookupTV inst k := by
  induction tp generalizing init with
  | nil => simp
  | cons hd tl ih =>
      obtain ⟨k0, t⟩ := hd
      rw [snapshotProps] at h
      cases hl : lookupTV inst k0 with
      | none => rw [hl] at h; simp at h
      | some v =>
          rw [hl] at h
          cases hr : snapshotProps tl inst with
          | none => rw [hr] at h; simp at h
          | some r =>
              rw [hr] at h
              simp only [Option.some.injEq] at h
              subst h
              simp only [List.map_cons, List.nodup_cons] at hnd
              intro k hk
              simp only [List.map_cons, List.mem_cons] at hk
              by_cases hkk : k = k0
              · subst hkk
                simp [lookupTV, hl]
              · have hk0 : ¬ (k0 = k) := fun hh => hkk hh.symm
                have hmem : k ∈ tl.map Prod.fst := hk.resolve_left hkk
                have := ih r hr hnd.2 k hmem
                simpa [lookupTV, hk0] using this

end AssocLemmas

/-- A small concrete tween: one numeric property, duration 1, linear easing,
no repeats, no reverse, no delay, resolution 2. -/
def exTweenArgs : CTorArgs :=
  { instanceProps := [("X", TValue.num 0)]
    timeOpt := some 1
    easing := fun x => x
    repeatCountOpt := none
    reversesOpt := none
    delayTimeOpt := none
    targetProperties := [("X", TValue.num 100)]
    precision := 2 }

/-- The concrete tween right after `Play()`. -/
def exPlaying : CTState := playM (mkOkCT exTweenArgs)

/-- The concrete tween with a one-second start delay. -/
def exDelayArgs : CTorArgs := { exTweenArgs with delayTimeOpt := some 1 }

/-- A reachable `Paused` state of the delayed tween:
play, let the delay elapse, then pause. -/
def exPaused : CTState := pauseM (delayDoneM (playM (mkOkCT exDelayArgs)))

/-- The concrete tween with a negative delay. -/
def exNegDelayArgs : CTorArgs := { exTweenArgs with delayTimeOpt := some (-1) }

/- C3, counterexample.  A reachable state (construct, then `Play()` with no
delay) in which the controller is `Playing`; calling `Cancel()` there leaves
`PlaybackState` at `Playing`, not `Cancelled`, because `Cancel` assigns
`Cancelled` only when the state is still `Begin`. -/
unseal Rat.add Rat.mul Rat.inv Rat.sub in
theorem c3_cancel_not_cancelled_cex :
    exPlaying.PlaybackState = PlayState.Playing ∧
    (cancelM exPlaying).PlaybackState ≠ PlayState.Cancelled := by
  constructor
  · decide
  · decide

/-- C3 (amended): CustomTween's `Cancel()` sets `PlaybackState = Cancelled`
only when called while still in `Begin` and otherwise leaves the playback
state unchanged; the BezierTween variant's `Cancel()` always sets
`Cancelled`. -/
theorem c3_cancel_state :
    (∀ s : CTState, (cancelM s).PlaybackState =
        (if s.PlaybackState = PlayState.Begin then PlayState.Cancelled
         else s.PlaybackState)) ∧
    (∀ t : BTState, (btCancel t).PlaybackState = PlayState.Cancelled) := by
  constructor
  · intro s
    by_cases h : s.PlaybackState = PlayState.Begin <;> simp [cancelM, h]
  · intro t
    simp [btCancel]

/-- C4: calling `Play()` while the controller is already `Playing` or
`Delayed` returns before doing anything: the state (every field, including
the connection) is unchanged. -/
theorem c4_play_reentrant_noop (s : CTState)
    (h : s.PlaybackState = PlayState.Playing ∨ s.PlaybackState = PlayState.Delayed) :
    playM s = s := by
  rcases h with h | h <;> simp [playM, h]

/- C4, witness: replaying the concrete playing tween changes nothing. -/
unseal Rat.add Rat.mul Rat.inv Rat.sub in
theorem c4_play_reentrant_noop_witness : playM exPlaying = exPlaying :=
  c4_play_reentrant_noop exPlaying (Or.inl (by decide))

/-- C5: `Pause()` is a no-op in `Begin`, `Cancelled`, `Completed` and
`Delayed`; from `Playing` it moves to `Paused`, discards the accumulated
sub-step time and the connection, and preserves the step index and the
target instance's properties. -/
theorem c5_pause_spec (s : CTState) :
    ((s.PlaybackState = PlayState.Begin ∨ s.PlaybackState = PlayState.Cancelled ∨
      s.PlaybackState = PlayState.Completed ∨ s.PlaybackState = PlayState.Delayed) →
        pauseM s = s) ∧
    (s.PlaybackState = PlayState.Playing →
      (pauseM s).PlaybackState = PlayState.Paused ∧ (pauseM s).timeElapsed = 0 ∧
      (pauseM s).connected = false ∧ (pauseM s).progress = s.progress ∧
      (pauseM s).instanceProps = s.instanceProps) := by
  constructor
  · intro h
    simp [pauseM, h]
  · intro h
    simp [pauseM, h]

/- C5, witness: pausing the just-constructed tween (still `Begin`) changes
nothing, and pausing the concrete playing tween yields `Paused`. -/
unseal Rat.add Rat.mul Rat.inv Rat.sub in
theorem c5_pause_spec_witness :
    pauseM ctDefault = ctDefault ∧
    (pauseM exPlaying).PlaybackState = PlayState.Paused :=
  ⟨(c5_pause_spec ctDefault).1 (Or.inl rfl),
   ((c5_pause_spec exPlaying).2 (by decide)).1⟩

/- C7, counterexample.  Constructing with `delayTime = -1` does raise
"Delay cannot be negative", but the constructor body has already assigned
the `easing`, `Instance`, `time` and `targetProperties` fields when the check
on the delay runs, so the trace of executed steps at the failure is not
empty. -/
unseal Rat.add Rat.mul Rat.inv Rat.sub in
theorem c7_negative_delay_cex :
    (mkCustomTween exNegDelayArgs).1 =
      [CtorStep.easingSet, CtorStep.instanceSet, CtorStep.timeSet, CtorStep.targetSet] ∧
    (mkCustomTween exNegDelayArgs).1 ≠ [] ∧
    ((mkCustomTween exNegDelayArgs).2.toOption).isNone = true := by
  refine ⟨by decide, by decide, by decide⟩

/-- C7 (amended): any construction with a negative `delayTime` fails with the
configuration error before the delay, precision, repeat, reverses and
tween-time fields are set and before the initial property snapshot is taken,
but after the easing, instance, time and target-property fields have been
assigned. -/
theorem c7_negative_delay (a : CTorArgs) (d : ℚ) (h : a.delayTimeOpt = some d)
    (hd : d < 0) :
    mkCustomTween a =
      ([CtorStep.easingSet, CtorStep.instanceSet, CtorStep.timeSet, CtorStep.targetSet],
       Except.error "Delay cannot be negative") := by
  rw [mkCustomTween]
  simp only [h, Option.getD_some]
  rw [if_pos hd]

/- C7, witness. -/
unseal Rat.add Rat.mul Rat.inv Rat.sub in
theorem c7_negative_delay_witness :
    mkCustomTween exNegDelayArgs =
      ([CtorStep.easingSet, CtorStep.instanceSet, CtorStep.timeSet, CtorStep.targetSet],
       Except.error "Delay cannot be negative") :=
  c7_negative_delay exNegDelayArgs (-1) rfl (by decide)

/-- C10: calling `Play()` on a `Paused` controller whose configured delay is
positive does not resume playback immediately: it re-enters `Delayed` with a
fresh wait for the full configured delay, leaving the step index untouched,
and only when that wait resumes does the controller return to `Playing`,
still at the preserved step index. -/
theorem c10_play_paused_redelays (s : CTState)
    (hp : s.PlaybackState = PlayState.Paused) (ha : s.active = true)
    (hd : 0 < s.delay) :
    (playM s).PlaybackState = PlayState.Delayed ∧
    (playM s).pendingWait = some s.delay ∧
    (playM s).progress = s.progress ∧
    (playM s).connected = s.connected ∧
    (delayDoneM (playM s)).PlaybackState = PlayState.Playing ∧
    (delayDoneM (playM s)).progress = s.progress ∧
    (delayDoneM (playM s)).connected = true := by
  simp [playM, ha, hp, hd, delayDoneM]

/- C10, witness: on the concrete paused delayed tween. -/
unseal Rat.add Rat.mul Rat.inv Rat.sub in
theorem c10_play_paused_redelays_witness :
    (playM exPaused).PlaybackState = PlayState.Delayed ∧
    (delayDoneM (playM exPaused)).PlaybackState = PlayState.Playing :=
  ⟨(c10_play_paused_redelays exPaused (by decide) (by decide) (by decide)).1,
   (c10_play_paused_redelays exPaused (by decide) (by decide) (by decide)).2.2.2.2.1⟩

section Preservation

theorem playM_initial (s : CTState) : (playM s).initial = s.initial := by
  unfold playM; split_ifs <;> rfl

theorem playM_targetProps (s : CTState) :
    (playM s).targetProperties = s.targetProperties := by
  unfold playM; split_ifs <;> rfl

theorem passEnd_initial (s : CTState) : (passEnd s).1.initial = s.initial := by
  unfold passEnd
  split_ifs
  · rfl
  all_goals (dsimp only; split_ifs <;> first | rfl | simp [playM_initial])

theorem passEnd_targetProps (s : CTState) :
    (passEnd s).1.targetProperties = s.targetProperties := by
  unfold passEnd
  split_ifs
  · rfl
  all_goals (dsimp only; split_ifs <;> first | rfl | simp [playM_targetProps])

theorem drain_pres (n : ℕ) (s : CTState) (out : List ℚ) :
    (drain n s out).1.active = s.active ∧
    (drain n s out).1.delay = s.delay ∧
    (drain n s out).1.easing = s.easing ∧
    (drain n s out).1.targetProperties = s.targetProperties ∧
    (drain n s out).1.initial = s.initial ∧
    (drain n s out).1.precision = s.precision ∧
    (drain n s out).1.repeatsRemaining = s.repeatsRemaining ∧
    (drain n s out).1.reverses = s.reverses ∧
    (drain n s out).1.reversing = s.reversing ∧
    (drain n s out).1.time = s.time ∧
    (drain n s out).1.tweenTime = s.tweenTime ∧
    (drain n s out).1.connected = s.connected ∧
    (drain n s out).1.pendingWait = s.pendingWait ∧
    (drain n s out).1.PlaybackState = s.PlaybackState := by
  induction n generalizing s out with
  | zero => simp [drain]
  | succ n ih =>
      rw [drain]
      dsimp only
      split_ifs <;> first | simp | simpa using ih _ _

theorem heartbeat_initial (s : CTState) (dt : ℚ) :
    (heartbeat s dt).1.initial = s.initial := by
  unfold heartbeat
  split_ifs with h1
  · rfl
  · dsimp only
    rw [(drain_pres _ _ _).2.2.2.2.1]
    split
    · rw [passEnd_initial]
    · rfl

theorem heartbeat_targetProps (s : CTState) (dt : ℚ) :
    (heartbeat s dt).1.targetProperties = s.targetProperties := by
  unfold heartbeat
  split_ifs with h1
  · rfl
  · dsimp only
    rw [(drain_pres _ _ _).2.2.2.1]
    split
    · rw [passEnd_targetProps]
    · rfl

theorem applyEvent_initial (s : CTState) (e : TEvent) :
    (applyEvent s e).1.initial = s.initial := by
  cases e with
  | tick dt =>
      unfold applyEvent
      split_ifs
      · exact heartbeat_initial s dt
      · rfl
  | delayDone =>
      show (delayDoneM s).initial = s.initial
      unfold delayDoneM
      cases s.pendingWait <;> rfl
  | play => exact playM_initial s
  | pause =>
      show (pauseM s).initial = s.initial
      unfold pauseM; split_ifs <;> rfl
  | cancel =>
      show (cancelM s).initial = s.initial
      unfold cancelM; split_ifs <;> rfl
  | destroy => rfl

theorem applyEvent_targetProps (s : CTState) (e : TEvent) :
    (applyEvent s e).1.targetProperties = s.targetProperties := by
  cases e with
  | tick dt =>
      unfold applyEvent
      split_ifs
      · exact heartbeat_targetProps s dt
      · rfl
  | delayDone =>
      show (delayDoneM s).targetProperties = s.targetProperties
      unfold delayDoneM
      cases s.pendingWait <;> rfl
  | play => exact playM_targetProps s
  | pause =>
      show (pauseM s).targetProperties = s.targetProperties
      unfold pauseM; split_ifs <;> rfl
  | cancel =>
      show (cancelM s).targetProperties = s.targetProperties
      unfold cancelM; split_ifs <;> rfl
  | destroy => rfl

theorem runEvents_initial (s : CTState) (evs : List TEvent) :
    (runEvents s evs).1.initial = s.initial := by
  induction evs generalizing s with
  | nil => rfl
  | cons e es ih =>
      show (runEvents (applyEvent s e).1 es).1.initial = s.initial
      rw [ih, applyEvent_initial]

theorem runEvents_targetProps (s : CTState) (evs : List TEvent) :
    (runEvents s evs).1.targetProperties = s.targetProperties := by
  induction evs generalizing s with
  | nil => rfl
  | cons e es ih =>
      show (runEvents (applyEvent s e).1 es).1.targetProperties = s.targetProperties
      rw [ih, applyEvent_targetProps]

end Preservation

theorem cancelM_progress (s : CTState) : (cancelM s).progress = 0 := by
  unfold cancelM; split_ifs <;> rfl

theorem cancelM_timeElapsed (s : CTState) : (cancelM s).timeElapsed = 0 := by
  unfold cancelM; split_ifs <;> rfl

theorem cancelM_instanceProps (s : CTState) :
    (cancelM s).instanceProps = writeAll s.initial s.instanceProps := by
  unfold cancelM; split_ifs <;> rfl

theorem mkCustomTween_ok_fields (a : CTorArgs) (tr : List CtorStep) (s0 : CTState)
    (hmk : mkCustomTween a = (tr, Except.ok s0)) :
    s0.targetProperties = a.targetProperties ∧
    snapshotProps a.targetProperties a.instanceProps = some s0.initial := by
  rw [mkCustomTween] at hmk
  split_ifs at hmk with hd
  · simp at hmk
  all_goals
    cases hsnap : snapshotProps a.targetProperties a.instanceProps with
    | none => rw [hsnap] at hmk; simp at hmk
    | some init =>
        rw [hsnap] at hmk
        simp only [Prod.mk.injEq, Except.ok.injEq] at hmk
        have hs : s0 = _ := hmk.2.symm
        subst hs
        exact ⟨rfl, rfl⟩

/-- C2: from any state reachable by constructing a tween and then applying an
arbitrary sequence of events (plays, ticks, pauses, cancels, delay
resumptions, destroys), `Cancel()` zeroes the step index and the accumulated
time and writes every property named in `targetProperties` back to exactly
the value the target instance held at construction. -/
theorem c2_cancel_restores (a : CTorArgs) (s0 : CTState) (tr : List CtorStep)
    (evs : List TEvent) (hmk : mkCustomTween a = (tr, Except.ok s0))
    (hnd : (a.targetProperties.map Prod.fst).Nodup) :
    (cancelM (runEvents s0 evs).1).progress = 0 ∧
    (cancelM (runEvents s0 evs).1).timeElapsed = 0 ∧
    ∀ k, k ∈ a.targetProperties.map Prod.fst →
      lookupTV (cancelM (runEvents s0 evs).1).instanceProps k =
        lookupTV a.instanceProps k := by
  obtain ⟨htp, hsnap⟩ := mkCustomTween_ok_fields a tr s0 hmk
  refine ⟨cancelM_progress _, cancelM_timeElapsed _, ?_⟩
  intro k hk
  rw [cancelM_instanceProps, runEvents_initial]
  have hkeys : s0.initial.map Prod.fst = a.targetProperties.map Prod.fst :=
    snapshotProps_keys _ _ _ hsnap
  have hndi : (s0.initial.map Prod.fst).Nodup := by rw [hkeys]; exact hnd
  have hmem : k ∈ s0.initial.map Prod.fst := by rw [hkeys]; exact hk
  rw [writeAll_lookup_mem _ _ _ hndi hmem]
  exact snapshotProps_lookup _ _ _ hsnap hnd k hk

/- C2, witness: drive the concrete tween through play, a tick, a pause and a
replay, then cancel; the property "X" is back at its construction value 0 and
the counters are zero. -/
unseal Rat.add Rat.mul Rat.inv Rat.sub in
theorem c2_cancel_restores_witness :
    (cancelM (runEvents (mkOkCT exTweenArgs)
        [TEvent.play, TEvent.tick (1/2), TEvent.pause, TEvent.play,
         TEvent.tick (1/2)]).1).progress = 0 ∧
    lookupTV (cancelM (runEvents (mkOkCT exTweenArgs)
        [TEvent.play, TEvent.tick (1/2), TEvent.pause, TEvent.play,
         TEvent.tick (1/2)]).1).instanceProps "X" =
      lookupTV exTweenArgs.instanceProps "X" := by
  have h := c2_cancel_restores exTweenArgs (mkOkCT exTweenArgs)
    [CtorStep.easingSet, CtorStep.instanceSet, CtorStep.timeSet, CtorStep.targetSet,
     CtorStep.delaySet, CtorStep.precisionSet, CtorStep.repeatsSet,
     CtorStep.reversesSet, CtorStep.tweenTimeSet, CtorStep.snapshotTaken]
    [TEvent.play, TEvent.tick (1/2), TEvent.pause, TEvent.play, TEvent.tick (1/2)]
    (by rfl)
    (by decide)
  exact ⟨h.1, h.2.2 "X" (by decide)⟩

theorem synthProps_keys_sub (p : ℚ) (init tp : List (String × TValue)) (k : String)
    (h : k ∈ (synthProps p init tp).map Prod.fst) : k ∈ tp.map Prod.fst := by
  induction tp with
  | nil => simp [synthProps] at h
  | cons hd tl ih =>
      obtain ⟨k0, t0⟩ := hd
      rw [synthProps] at h
      cases hi : interpStep p (lookupTV init k0) t0 with
      | none =>
          rw [hi] at h
          exact List.mem_cons_of_mem _ (ih h)
      | some v =>
          rw [hi] at h
          simp only [List.map_cons, List.mem_cons] at h ⊢
          exact h.imp id ih

theorem lookupTV_eq_none_of_notmem (l : List (String × TValue)) (k : String)
    (h : k ∉ l.map Prod.fst) : lookupTV l k = none := by
  induction l with
  | nil => rfl
  | cons hd tl ih =>
      obtain ⟨k0, v0⟩ := hd
      simp only [List.map_cons, List.mem_cons] at h
      push_neg at h
      rw [lookupTV, if_neg (fun hh => h.1 hh.symm)]
      exact ih h.2

theorem synthProps_lookup (p : ℚ) (init tp : List (String × TValue))
    (hnd : (tp.map Prod.fst).Nodup) (k : String) (t : TValue) (hmem : (k, t) ∈ tp) :
    lookupTV (synthProps p init tp) k = interpStep p (lookupTV init k) t := by
  induction tp with
  | nil => simp at hmem
  | cons hd tl ih =>
      obtain ⟨k0, t0⟩ := hd
      simp only [List.map_cons, List.nodup_cons] at hnd
      rw [List.mem_cons] at hmem
      rcases hmem with heq | htl
      · rw [Prod.mk.injEq] at heq
        obtain ⟨hk, ht⟩ := heq
        subst hk; subst ht
        rw [synthProps]
        cases hi : interpStep p (lookupTV init k) t with
        | none =>
            dsimp only
            have hnot : k ∉ (synthProps p init tl).map Prod.fst :=
              fun hmem2 => hnd.1 (synthProps_keys_sub p init tl k hmem2)
            exact lookupTV_eq_none_of_notmem _ _ hnot
        | some v =>
            dsimp only
            simp [lookupTV]
      · have hk0 : ¬ (k0 = k) := by
          intro hh
          subst hh
          exact hnd.1 (List.mem_map_of_mem Prod.fst htl)
        rw [synthProps]
        cases hi : interpStep p (lookupTV init k0) t0 with
        | none =>
            dsimp only
            exact ih hnd.2 htl
        | some v =>
            dsimp only
            rw [lookupTV, if_neg hk0]
            exact ih hnd.2 htl

/-- C8 (amended): when a target property's value has a runtime type outside
the supported set, `getCurrentProperties` raises nothing: it silently leaves
that property out of the synthesized set (the `switch` has no default case)
while the remaining, supported properties are still interpolated normally. -/
theorem c8_unsupported_skipped (s : CTState) (p : ℚ)
    (hnd : (s.targetProperties.map Prod.fst).Nodup) :
    (∀ k tag, (k, TValue.unsupported tag) ∈ s.targetProperties →
        lookupTV (getCurrentProperties s p) k = none) ∧
    (∀ k a b, (k, TValue.num b) ∈ s.targetProperties →
        lookupTV s.initial k = some (TValue.num a) →
        lookupTV (getCurrentProperties s p) k =
          some (TValue.num (lerpQ p a b))) := by
  constructor
  · intro k tag hmem
    rw [getCurrentProperties, synthProps_lookup p s.initial s.targetProperties hnd k _ hmem]
    rfl
  · intro k a b hmem hinit
    rw [getCurrentProperties, synthProps_lookup p s.initial s.targetProperties hnd k _ hmem,
      hinit]
    rfl

/-- A concrete tween whose targets hold one supported (numeric) property and
one unsupported (EnumItem-typed) property. -/
def ex8Args : CTorArgs :=
  { instanceProps := [("A", TValue.num 0), ("B", TValue.unsupported "EnumItem")]
    timeOpt := some 1
    easing := fun x => x
    repeatCountOpt := none
    reversesOpt := none
    delayTimeOpt := none
    targetProperties := [("A", TValue.num 1), ("B", TValue.unsupported "EnumItem")]
    precision := 2 }

/- C8, counterexample.  Synthesizing at progress 1/2 returns a plain property
set (no error is raised anywhere in `getCurrentProperties`): the unsupported
property "B" is silently missing from it, while the supported sibling "A" has
been interpolated — the operation is not aborted. -/
unseal Rat.add Rat.mul Rat.inv Rat.sub in
theorem c8_unsupported_skipped_cex :
    getCurrentProperties (mkOkCT ex8Args) (1/2) = [("A", TValue.num (1/2))] ∧
    ("B" ∈ (mkOkCT ex8Args).targetProperties.map Prod.fst) ∧
    lookupTV (getCurrentProperties (mkOkCT ex8Args) (1/2)) "B" = none := by
  refine ⟨by decide, by decide, by decide⟩

/- C8, witness. -/
unseal Rat.add Rat.mul Rat.inv Rat.sub in
theorem c8_unsupported_skipped_witness :
    lookupTV (getCurrentProperties (mkOkCT ex8Args) (1/2)) "B" = none ∧
    lookupTV (getCurrentProperties (mkOkCT ex8Args) (1/2)) "A" =
      some (TValue.num (lerpQ (1/2) 0 1)) :=
  ⟨(c8_unsupported_skipped (mkOkCT ex8Args) (1/2) (by decide)).1 "B" "EnumItem" (by decide),
   (c8_unsupported_skipped (mkOkCT ex8Args) (1/2) (by decide)).2 "A" 0 1 (by decide) (by decide)⟩

/-- Events that drive playback without user calls: Heartbeat pulses and the
delay wait resuming. -/
def driveEvent : TEvent → Bool
  | TEvent.tick _ => true
  | TEvent.delayDone => true
  | _ => false

/-- Invariant of a forward-only tween constructed with `repeatCount = N` and
played: after `c` completed passes the repeat counter reads `N + 1 - c`, and
the controller is either on a pass (`Playing`, live connection), waiting out
the start delay of the next pass, or terminally completed with `c = N + 1`. -/
def RepInv (N : ℕ) (c : ℕ) (s : CTState) : Prop :=
  s.active = true ∧ s.reverses = false ∧ s.reversing = false ∧
  s.repeatsRemaining = (N : ℤ) + 1 - (c : ℤ) ∧
  ((s.PlaybackState = PlayState.Playing ∧ s.connected = true ∧
      s.pendingWait = none ∧ c ≤ N) ∨
   (s.PlaybackState = PlayState.Delayed ∧ s.connected = false ∧
      s.pendingWait = some s.delay ∧ c ≤ N) ∨
   (s.PlaybackState = PlayState.Completed ∧ s.connected = false ∧
      s.pendingWait = none ∧ c = N + 1))

theorem repInv_drain (N c : ℕ) (s : CTState) (n : ℕ) (out : List ℚ)
    (h : RepInv N c s) : RepInv N c (drain n s out).1 := by
  obtain ⟨ha, hrev, hrevg, hrr, hcase⟩ := h
  have hd := drain_pres n s out
  refine ⟨by rw [hd.1]; exact ha, by rw [hd.2.2.2.2.2.2.2.1]; exact hrev,
    by rw [hd.2.2.2.2.2.2.2.2.1]; exact hrevg,
    by rw [hd.2.2.2.2.2.2.1]; exact hrr, ?_⟩
  rcases hcase with ⟨h1, h2, h3, h4⟩ | ⟨h1, h2, h3, h4⟩ | ⟨h1, h2, h3, h4⟩
  · exact Or.inl ⟨by rw [hd.2.2.2.2.2.2.2.2.2.2.2.2.2]; exact h1,
      by rw [hd.2.2.2.2.2.2.2.2.2.2.2.1]; exact h2,
      by rw [hd.2.2.2.2.2.2.2.2.2.2.2.2.1]; exact h3, h4⟩
  · exact Or.inr (Or.inl ⟨by rw [hd.2.2.2.2.2.2.2.2.2.2.2.2.2]; exact h1,
      by rw [hd.2.2.2.2.2.2.2.2.2.2.2.1]; exact h2,
      by rw [hd.2.2.2.2.2.2.2.2.2.2.2.2.1, hd.2.1]; exact h3, h4⟩)
  · exact Or.inr (Or.inr ⟨by rw [hd.2.2.2.2.2.2.2.2.2.2.2.2.2]; exact h1,
      by rw [hd.2.2.2.2.2.2.2.2.2.2.2.1]; exact h2,
      by rw [hd.2.2.2.2.2.2.2.2.2.2.2.2.1]; exact h3, h4⟩)

theorem repInv_step (N c : ℕ) (s : CTState) (e : TEvent) (hd : driveEvent e = true)
    (h : RepInv N c s) :
    RepInv N (c + (applyEvent s e).2.2) (applyEvent s e).1 := by
  obtain ⟨ha, hrev, hrevg, hrr, hcase⟩ := h
  cases e with
  | play => simp [driveEvent] at hd
  | pause => simp [driveEvent] at hd
  | cancel => simp [driveEvent] at hd
  | destroy => simp [driveEvent] at hd
  | delayDone =>
      simp only [applyEvent, Nat.add_zero]
      rcases hcase with ⟨h1, h2, h3, h4⟩ | ⟨h1, h2, h3, h4⟩ | ⟨h1, h2, h3, h4⟩
      · unfold delayDoneM
        rw [h3]
        exact ⟨ha, hrev, hrevg, hrr, Or.inl ⟨h1, h2, h3, h4⟩⟩
      · unfold delayDoneM
        rw [h3]
        exact ⟨ha, hrev, hrevg, hrr, Or.inl ⟨rfl, rfl, rfl, h4⟩⟩
      · unfold delayDoneM
        rw [h3]
        exact ⟨ha, hrev, hrevg, hrr, Or.inr (Or.inr ⟨h1, h2, h3, h4⟩)⟩
  | tick dt =>
      simp only [applyEvent]
      by_cases hc2 : s.connected = true
      · rw [if_pos hc2]
        rcases hcase with ⟨h1, h2, h3, h4⟩ | ⟨h1, h2, h3, h4⟩ | ⟨h1, h2, h3, h4⟩
        · -- Playing, live connection: the Heartbeat body runs
          unfold heartbeat
          rw [if_neg (by simp [ha])]
          dsimp only
          by_cases hp : s.precision < s.progress
          · rw [if_pos hp]
            unfold passEnd
            rw [if_neg (by simp [hrev])]
            dsimp only
            have h0 : (0 : ℤ) ≤ s.repeatsRemaining := by rw [hrr]; omega
            simp only [if_pos h0]
            have hrr' :
                s.repeatsRemaining - 1 = (N : ℤ) + 1 - ((c + 1 : ℕ) : ℤ) := by
              rw [hrr]; push_cast; ring
            by_cases hz : s.repeatsRemaining - 1 = 0
            · simp only [if_pos hz]
              apply repInv_drain
              exact ⟨ha, hrev, rfl, hrr',
                Or.inr (Or.inr ⟨rfl, rfl, h3, by rw [hrr] at hz; omega⟩)⟩
            · simp only [if_neg hz]
              apply repInv_drain
              unfold playM
              rw [if_neg (by simp [ha])]
              rw [if_neg (by simp)]
              by_cases hdl : (0 : ℚ) < s.delay
              · rw [if_pos (by simpa using hdl)]
                exact ⟨ha, hrev, rfl, hrr',
                  Or.inr (Or.inl ⟨rfl, rfl, rfl, by rw [hrr] at hz; omega⟩)⟩
              · rw [if_neg (by simpa using hdl)]
                exact ⟨ha, hrev, rfl, hrr',
                  Or.inl ⟨rfl, rfl, h3, by rw [hrr] at hz; omega⟩⟩
          · rw [if_neg hp]
            dsimp only
            rw [Nat.add_zero]
            apply repInv_drain
            exact ⟨ha, hrev, hrevg, hrr, Or.inl ⟨h1, h2, h3, h4⟩⟩
        · rw [h2] at hc2; simp at hc2
        · rw [h2] at hc2; simp at hc2
      · rw [if_neg hc2]
        simp only [Nat.add_zero]
        exact ⟨ha, hrev, hrevg, hrr, hcase⟩

theorem repInv_run (N c : ℕ) (s : CTState) (evs : List TEvent)
    (hd : ∀ e ∈ evs, driveEvent e = true) (h : RepInv N c s) :
    RepInv N (c + (runEvents s evs).2.2) (runEvents s evs).1 := by
  induction evs generalizing s c with
  | nil => simpa [runEvents] using h
  | cons e es ih =>
      have h1 := repInv_step N c s e (hd e (List.mem_cons_self e es)) h
      have h2 := ih (c + (applyEvent s e).2.2) (applyEvent s e).1
        (fun e' he' => hd e' (List.mem_cons_of_mem e he')) h1
      show RepInv N (c + ((applyEvent s e).2.2 + (runEvents (applyEvent s e).1 es).2.2))
        (runEvents (applyEvent s e).1 es).1
      rw [← Nat.add_assoc]
      exact h2

/-- Invariant of a controller whose repeat counter started at the infinite
sentinel: the counter stays nonpositive and the playback state is never left
at `Completed` after an event completes. -/
def NoTermInv (s : CTState) : Prop :=
  s.active = true ∧ s.repeatsRemaining ≤ 0 ∧ s.PlaybackState ≠ PlayState.Completed

theorem noTermInv_drain (s : CTState) (n : ℕ) (out : List ℚ)
    (h : NoTermInv s) : NoTermInv (drain n s out).1 := by
  obtain ⟨ha, hrr, hst⟩ := h
  have hd := drain_pres n s out
  exact ⟨by rw [hd.1]; exact ha, by rw [hd.2.2.2.2.2.2.1]; exact hrr,
    by rw [hd.2.2.2.2.2.2.2.2.2.2.2.2.2]; exact hst⟩

theorem noTermInv_step (s : CTState) (e : TEvent)
    (hc : e ≠ TEvent.cancel) (hdy : e ≠ TEvent.destroy) (h : NoTermInv s) :
    NoTermInv (applyEvent s e).1 := by
  obtain ⟨ha, hrr, hst⟩ := h
  cases e with
  | cancel => exact absurd rfl hc
  | destroy => exact absurd rfl hdy
  | delayDone =>
      simp only [applyEvent]
      unfold delayDoneM
      cases hpw : s.pendingWait with
      | none => exact ⟨ha, hrr, hst⟩
      | some w => exact ⟨ha, hrr, by simp⟩
  | play =>
      simp only [applyEvent]
      unfold playM
      split_ifs
      · exact ⟨ha, hrr, hst⟩
      · exact ⟨ha, hrr, hst⟩
      · exact ⟨ha, hrr, by simp⟩
      · exact ⟨ha, hrr, by simp⟩
  | pause =>
      simp only [applyEvent]
      unfold pauseM
      split_ifs
      · exact ⟨ha, hrr, hst⟩
      · exact ⟨ha, hrr, by simp⟩
  | tick dt =>
      simp only [applyEvent]
      by_cases hc2 : s.connected = true
      · rw [if_pos hc2]
        unfold heartbeat
        rw [if_neg (by simp [ha])]
        dsimp only
        by_cases hp : s.precision < s.progress
        · rw [if_pos hp]
          unfold passEnd
          by_cases hrb : s.reverses = true ∧ s.reversing = false
          · rw [if_pos hrb]
            dsimp only
            apply noTermInv_drain
            exact ⟨ha, hrr, hst⟩
          · rw [if_neg hrb]
            dsimp only
            by_cases hsgn : (0 : ℤ) ≤ s.repeatsRemaining
            · simp only [if_pos hsgn]
              have hlt : s.repeatsRemaining - 1 < 0 := by omega
              rw [if_neg (show ¬(s.repeatsRemaining - 1 = 0) by omega)]
              apply noTermInv_drain
              unfold playM
              rw [if_neg (by simp [ha]), if_neg (by simp)]
              split_ifs
              · exact ⟨ha, hlt.le, by simp⟩
              · exact ⟨ha, hlt.le, by simp⟩
            · simp only [if_neg hsgn]
              rw [if_neg (show ¬(s.repeatsRemaining = 0) by omega)]
              apply noTermInv_drain
              unfold playM
              rw [if_neg (by simp [ha]), if_neg (by simp)]
              split_ifs
              · exact ⟨ha, hrr, by simp⟩
              · exact ⟨ha, hrr, by simp⟩
        · rw [if_neg hp]
          dsimp only
          apply noTermInv_drain
          exact ⟨ha, hrr, hst⟩
      · rw [if_neg hc2]
        exact ⟨ha, hrr, hst⟩

theorem noTermInv_run (s : CTState) (evs : List TEvent)
    (hd : ∀ e ∈ evs, e ≠ TEvent.cancel ∧ e ≠ TEvent.destroy) (h : NoTermInv s) :
    NoTermInv (runEvents s evs).1 := by
  induction evs generalizing s with
  | nil => simpa [runEvents] using h
  | cons e es ih =>
      have h1 := noTermInv_step s e (hd e (List.mem_cons_self e es)).1
        (hd e (List.mem_cons_self e es)).2 h
      exact ih (applyEvent s e).1 (fun e' he' => hd e' (List.mem_cons_of_mem e he')) h1

theorem mkCustomTween_ok_state (a : CTorArgs) (tr : List CtorStep) (s0 : CTState)
    (hmk : mkCustomTween a = (tr, Except.ok s0)) :
    s0.active = true ∧ s0.delay = a.delayTimeOpt.getD 0 ∧
    s0.repeatsRemaining =
      1 + (if a.repeatCountOpt.getD 0 < 0 then (-1 : ℤ) else a.repeatCountOpt.getD 0) ∧
    s0.reverses = a.reversesOpt.getD false ∧ s0.reversing = false ∧
    s0.connected = false ∧ s0.pendingWait = none ∧
    s0.PlaybackState = PlayState.Begin ∧ s0.progress = 0 ∧ s0.timeElapsed = 0 := by
  rw [mkCustomTween] at hmk
  split_ifs at hmk with hd hrc hrc
  case pos => simp at hmk
  all_goals
    cases hsnap : snapshotProps a.targetProperties a.instanceProps with
    | none => rw [hsnap] at hmk; simp at hmk
    | some init =>
        rw [hsnap] at hmk
        simp only [Prod.mk.injEq, Except.ok.injEq] at hmk
        have hs : s0 = _ := hmk.2.symm
        subst hs
        exact ⟨rfl, rfl, by simp [hrc], rfl, rfl, rfl, rfl, rfl, rfl, rfl⟩

/-- C6: with `reverses = false`, a controller constructed with
`repeatCount = N ≥ 0` and played completes at most `N + 1` passes under any
sequence of Heartbeat ticks and delay resumptions, and whenever its playback
state reads `Completed` at rest it has completed exactly `N + 1` passes (the
terminal `Completed`); a controller constructed with `repeatCount = -1` is
never left in `Completed` by any sequence of events that does not include
`Cancel()` or `Destroy()` — every pass completion immediately replays. -/
theorem c6_repeat_accounting :
    (∀ (N : ℕ) (a : CTorArgs) (tr : List CtorStep) (s0 : CTState) (evs : List TEvent),
      mkCustomTween a = (tr, Except.ok s0) →
      a.repeatCountOpt = some (N : ℤ) →
      a.reversesOpt.getD false = false →
      (∀ e ∈ evs, driveEvent e = true) →
      (runEvents (playM s0) evs).2.2 ≤ N + 1 ∧
      ((runEvents (playM s0) evs).1.PlaybackState = PlayState.Completed →
        (runEvents (playM s0) evs).2.2 = N + 1)) ∧
    (∀ (a : CTorArgs) (tr : List CtorStep) (s0 : CTState) (evs : List TEvent),
      mkCustomTween a = (tr, Except.ok s0) →
      a.repeatCountOpt = some (-1 : ℤ) →
      (∀ e ∈ evs, e ≠ TEvent.cancel ∧ e ≠ TEvent.destroy) →
      (runEvents s0 evs).1.PlaybackState ≠ PlayState.Completed) := by
  constructor
  · intro N a tr s0 evs hmk hN hrev hdrive
    obtain ⟨ha, hdl, hrr, hrv, hrvg, hcn, hpw, hpb, -, -⟩ :=
      mkCustomTween_ok_state a tr s0 hmk
    have hrr2 : s0.repeatsRemaining = (N : ℤ) + 1 - ((0 : ℕ) : ℤ) := by
      rw [hrr, hN]
      simp only [Option.getD_some]
      rw [if_neg (by omega)]
      push_cast
      ring
    have hrv2 : s0.reverses = false := by rw [hrv, hrev]
    have hinv : RepInv N 0 (playM s0) := by
      unfold playM
      rw [if_neg (by simp [ha]), if_neg (by simp [hpb])]
      by_cases hdl2 : (0 : ℚ) < s0.delay
      · rw [if_pos hdl2]
        exact ⟨ha, hrv2, hrvg, hrr2, Or.inr (Or.inl ⟨rfl, hcn, rfl, Nat.zero_le N⟩)⟩
      · rw [if_neg hdl2]
        exact ⟨ha, hrv2, hrvg, hrr2, Or.inl ⟨rfl, rfl, hpw, Nat.zero_le N⟩⟩
    have hrun := repInv_run N 0 (playM s0) evs hdrive hinv
    rw [Nat.zero_add] at hrun
    obtain ⟨-, -, -, -, hcase⟩ := hrun
    rcases hcase with ⟨h1, -, -, h4⟩ | ⟨h1, -, -, h4⟩ | ⟨h1, -, -, h4⟩
    · exact ⟨Nat.le_succ_of_le h4, fun hcpl => absurd (h1.symm.trans hcpl) (by simp)⟩
    · exact ⟨Nat.le_succ_of_le h4, fun hcpl => absurd (h1.symm.trans hcpl) (by simp)⟩
    · exact ⟨Nat.le_of_eq h4, fun _ => h4⟩
  · intro a tr s0 evs hmk hN hno
    obtain ⟨ha, -, hrr, -, -, -, -, hpb, -, -⟩ := mkCustomTween_ok_state a tr s0 hmk
    have hinv : NoTermInv s0 :=
      ⟨ha, by rw [hrr, hN]; simp, by rw [hpb]; simp⟩
    exact (noTermInv_run s0 evs hno hinv).2.2

/-- The concrete tween at resolution 1 with one extra repeat. -/
def ex6Args : CTorArgs := { exTweenArgs with repeatCountOpt := some 1, precision := 1 }

/-- The concrete tween at resolution 1 with the infinite repeat sentinel. -/
def ex6bArgs : CTorArgs := { exTweenArgs with repeatCountOpt := some (-1), precision := 1 }

/- C6, witness: the repeat-1 tween completes exactly 2 passes over 5 unit
ticks and rests in Completed; the repeat-(-1) tween is still not Completed
after its passes finish (it replays itself). -/
unseal Rat.add Rat.mul Rat.inv Rat.sub in
theorem c6_repeat_accounting_witness :
    (runEvents (playM (mkOkCT ex6Args))
      [TEvent.tick 1, TEvent.tick 1, TEvent.tick 1, TEvent.tick 1,
       TEvent.tick 1]).2.2 = 1 + 1 ∧
    (runEvents (mkOkCT ex6bArgs)
      [TEvent.play, TEvent.tick 1, TEvent.tick 1, TEvent.tick 1]).1.PlaybackState ≠
      PlayState.Completed := by
  constructor
  · exact (c6_repeat_accounting.1 1 ex6Args
      [CtorStep.easingSet, CtorStep.instanceSet, CtorStep.timeSet, CtorStep.targetSet,
       CtorStep.delaySet, CtorStep.precisionSet, CtorStep.repeatsSet,
       CtorStep.reversesSet, CtorStep.tweenTimeSet, CtorStep.snapshotTaken]
      (mkOkCT ex6Args) _ (by rfl) rfl rfl (by decide)).2 (by decide)
  · exact c6_repeat_accounting.2 ex6bArgs
      [CtorStep.easingSet, CtorStep.instanceSet, CtorStep.timeSet, CtorStep.targetSet,
       CtorStep.delaySet, CtorStep.precisionSet, CtorStep.repeatsSet,
       CtorStep.reversesSet, CtorStep.tweenTimeSet, CtorStep.snapshotTaken]
      (mkOkCT ex6bArgs) _ (by rfl) rfl (by decide)

section SampleLists

theorem fwdSamples_length (f : ℚ → ℚ) (R : ℕ) : (fwdSamples f R).length = R + 1 := by
  simp [fwdSamples]

theorem revSamples_length (f : ℚ → ℚ) (R : ℕ) : (revSamples f R).length = R + 1 := by
  simp [revSamples]

theorem passSamples_length (f : ℚ → ℚ) (R : ℕ) (b : Bool) :
    (passSamples f R b).length = R + 1 + (if b then R + 1 else 0) := by
  cases b <;> simp [passSamples, fwdSamples_length, revSamples_length]

theorem passSamples_get_fwd (f : ℚ → ℚ) (R : ℕ) (b : Bool) (i : ℕ) (h : i < R + 1) :
    (passSamples f R b)[i]? = some (f ((i : ℚ) / (R : ℚ))) := by
  rw [passSamples, List.getElem?_append_left (by rw [fwdSamples_length]; exact h)]
  rw [fwdSamples, List.getElem?_map, List.getElem?_range h]
  rfl

theorem passSamples_get_rev (f : ℚ → ℚ) (R : ℕ) (i : ℕ) (h : i < R + 1) :
    (passSamples f R true)[R + 1 + i]? = some (f (1 - (i : ℚ) / (R : ℚ))) := by
  rw [passSamples, List.getElem?_append_right (by rw [fwdSamples_length]; omega)]
  rw [fwdSamples_length]
  simp only [if_pos]
  have hidx : R + 1 + i - (R + 1) = i := by omega
  rw [hidx, revSamples, List.getElem?_map, List.getElem?_range h]
  rfl

theorem take_push (l : List ℚ) (n : ℕ) (x : ℚ) (h : l[n]? = some x) :
    l.take (n + 1) = l.take n ++ [x] := by
  rw [List.take_succ, h]
  rfl

end SampleLists

section DrainLemmas

theorem drain_of_lt (n : ℕ) (s : CTState) (out : List ℚ)
    (h : s.timeElapsed < s.tweenTime) : drain n s out = (s, out) := by
  cases n with
  | zero => rfl
  | succ n => rw [drain, if_pos h]

theorem drain_of_not_playing (n : ℕ) (s : CTState) (out : List ℚ)
    (h : s.PlaybackState ≠ PlayState.Playing) : drain n s out = (s, out) := by
  cases n with
  | zero => rfl
  | succ n =>
      rw [drain]
      by_cases h1 : s.timeElapsed < s.tweenTime
      · rw [if_pos h1]
      · rw [if_neg h1, if_pos (Or.inl h)]

theorem fuelFor_one (s : CTState) (hpos : 0 < s.tweenTime)
    (h1 : s.tweenTime ≤ s.timeElapsed) (h2 : s.timeElapsed < 2 * s.tweenTime) :
    fuelFor s = 1 := by
  unfold fuelFor
  rw [if_neg (not_le.mpr hpos)]
  have hfl : ⌊s.timeElapsed / s.tweenTime⌋ = 1 := by
    rw [Int.floor_eq_iff]
    constructor
    · push_cast
      rw [le_div_iff₀ hpos]
      linarith
    · push_cast
      rw [div_lt_iff₀ hpos]
      linarith
  rw [hfl]
  rfl

theorem drain_one_step (s : CTState) (out : List ℚ)
    (hst : s.PlaybackState = PlayState.Playing) (ha : s.active = true)
    (hpos : 0 < s.tweenTime) (h1 : s.tweenTime ≤ s.timeElapsed)
    (h2 : s.timeElapsed < 2 * s.tweenTime) :
    drain (fuelFor s) s out =
      ({ s with timeElapsed := s.timeElapsed - s.tweenTime,
                instanceProps := writeAll (getCurrentProperties s
                  (s.easing (if s.reversing = true
                    then 1 - (s.progress : ℚ) / (s.precision : ℚ)
                    else (s.progress : ℚ) / (s.precision : ℚ)))) s.instanceProps,
                progress := s.progress + 1 },
       out ++ [s.easing (if s.reversing = true
                 then 1 - (s.progress : ℚ) / (s.precision : ℚ)
                 else (s.progress : ℚ) / (s.precision : ℚ))]) := by
  rw [fuelFor_one s hpos h1 h2]
  rw [show (1 : ℕ) = 0 + 1 from rfl, drain]
  rw [if_neg (not_lt.mpr h1), if_neg (by simp [hst, ha])]
  dsimp only
  rw [drain_of_lt 0 _ _ (by dsimp only; linarith)]

end DrainLemmas

/-- Invariant of a single pass-pair run (repeat counter 1) under ticks of at
most one sample duration: the emitted shaped-progress values are exactly a
prefix of `passSamples`, indexed by the current step counter, until the
controller completes with the full list emitted. -/
def CycleInv (f : ℚ → ℚ) (R : ℕ) (tt : ℚ) (b : Bool) (s : CTState)
    (out : List ℚ) : Prop :=
  s.active = true ∧ s.easing = f ∧ s.precision = R ∧ s.tweenTime = tt ∧
  s.reverses = b ∧ s.pendingWait = none ∧ 0 ≤ s.timeElapsed ∧
  ((s.PlaybackState = PlayState.Playing ∧ s.connected = true ∧
      s.repeatsRemaining = 1 ∧ s.timeElapsed < tt ∧ s.progress ≤ R + 1 ∧
      ((s.reversing = false ∧ out = (passSamples f R b).take s.progress) ∨
       (b = true ∧ s.reversing = true ∧
          out = (passSamples f R b).take (R + 1 + s.progress)))) ∨
   (s.PlaybackState = PlayState.Completed ∧ s.connected = false ∧
      s.repeatsRemaining = 0 ∧ s.reversing = false ∧ out = passSamples f R b))

theorem cycleInv_step (f : ℚ → ℚ) (R : ℕ) (tt : ℚ) (b : Bool)
    (hR : 0 < R) (htt : 0 < tt) (s : CTState) (out : List ℚ) (dt : ℚ)
    (hdt0 : 0 ≤ dt) (hdt : dt ≤ tt) (h : CycleInv f R tt b s out) :
    CycleInv f R tt b (applyEvent s (TEvent.tick dt)).1
      (out ++ (applyEvent s (TEvent.tick dt)).2.1) := by
  obtain ⟨ha, hf, hprec, htw, hrv, hpw, hte0, hcase⟩ := h
  rcases hcase with ⟨h1, h2, h3, h4, h5, hsub⟩ | ⟨h1, h2, h3, h4, h5⟩
  · -- live pass
    simp only [applyEvent]
    rw [if_pos h2]
    unfold heartbeat
    rw [if_neg (by simp [ha])]
    dsimp only
    by_cases hpp : s.precision < s.progress
    · -- end-of-pass block fires: progress = R + 1
      have hprog : s.progress = R + 1 := by rw [hprec] at hpp; omega
      rw [if_pos hpp]
      unfold passEnd
      dsimp only
      rcases hsub with ⟨hrvg, hout⟩ | ⟨hb, hrvg, hout⟩
      · -- forward pass just finished
        by_cases hbt : b = true
        · -- reverses: flip into the reverse pass, same tick may emit
          rw [if_pos ⟨hrv.trans hbt, hrvg⟩]
          dsimp only
          by_cases hlt : s.timeElapsed + dt < tt
          · rw [drain_of_lt _ _ _ (by dsimp only; rw [htw]; exact hlt)]
            simp only [List.append_nil]
            refine ⟨ha, hf, hprec, htw, hrv, hpw, add_nonneg hte0 hdt0,
              Or.inl ⟨h1, h2, h3, hlt, Nat.zero_le _,
                Or.inr ⟨hbt, rfl, ?_⟩⟩⟩
            simp [hout, hprog]
          · have hge : tt ≤ s.timeElapsed + dt := not_lt.mp hlt
            rw [drain_one_step _ _ (by exact h1) (by exact ha)
              (by dsimp only; rw [htw]; exact htt)
              (by dsimp only; rw [htw]; exact hge)
              (by dsimp only; rw [htw]; linarith)]
            dsimp only
            refine ⟨ha, hf, hprec, htw, hrv, hpw,
              by dsimp only; rw [htw]; linarith,
              Or.inl ⟨h1, h2, h3, by dsimp only; rw [htw]; linarith,
                by dsimp only; omega, Or.inr ⟨hbt, rfl, ?_⟩⟩⟩
            dsimp only
            rw [if_pos rfl]
            rw [hf, hprec, hout, hprog, hbt]
            rw [show R + 1 + (0 + 1) = (R + 1 + 0) + 1 by omega]
            rw [take_push _ _ _ (passSamples_get_rev f R 0 (by omega))]
            simp
        · -- no reverse: complete, repeat counter 1 → 0, rest in Completed
          have hbf : b = false := by cases b; rfl; exact absurd rfl hbt
          rw [if_neg (by rw [hrv, hbf]; simp)]
          dsimp only
          simp only [h3]
          rw [show (if (0 : ℤ) ≤ 1 then (1 : ℤ) - 1 else 1) = 0 by norm_num]
          rw [if_pos rfl]
          rw [drain_of_not_playing _ _ _ (by dsimp only; simp)]
          dsimp only
          simp only [List.append_nil]
          refine ⟨ha, hf, hprec, htw, hrv, hpw, add_nonneg hte0 hdt0,
            Or.inr ⟨rfl, rfl, rfl, rfl, ?_⟩⟩
          rw [hout, hprog]
          have hlen : (passSamples f R b).length = R + 1 := by
            rw [passSamples_length, hbf]
            simp
          rw [← hlen, List.take_length]
      · -- reverse pass just finished: complete
        rw [if_neg (by rw [hrvg]; simp)]
        dsimp only
        simp only [h3]
        rw [show (if (0 : ℤ) ≤ 1 then (1 : ℤ) - 1 else 1) = 0 by norm_num]
        rw [if_pos rfl]
        rw [drain_of_not_playing _ _ _ (by dsimp only; simp)]
        dsimp only
        simp only [List.append_nil]
        refine ⟨ha, hf, hprec, htw, hrv, hpw, add_nonneg hte0 hdt0,
          Or.inr ⟨rfl, rfl, rfl, rfl, ?_⟩⟩
        rw [hout, hprog]
        have hlen : (passSamples f R b).length = R + 1 + (R + 1) := by
          rw [passSamples_length, hb]
          simp
        rw [← hlen, List.take_length]
    · -- mid-pass: at most one sample drains
      rw [if_neg hpp]
      dsimp only
      have hple : s.progress ≤ R := by rw [hprec] at hpp; omega
      by_cases hlt : s.timeElapsed + dt < tt
      · rw [drain_of_lt _ _ _ (by dsimp only; rw [htw]; exact hlt)]
        simp only [List.append_nil]
        exact ⟨ha, hf, hprec, htw, hrv, hpw, add_nonneg hte0 hdt0,
          Or.inl ⟨h1, h2, h3, hlt, h5, hsub⟩⟩
      · have hge : tt ≤ s.timeElapsed + dt := not_lt.mp hlt
        rw [drain_one_step _ _ (by exact h1) (by exact ha)
          (by dsimp only; rw [htw]; exact htt)
          (by dsimp only; rw [htw]; exact hge)
          (by dsimp only; rw [htw]; linarith)]
        dsimp only
        rcases hsub with ⟨hrvg, hout⟩ | ⟨hb, hrvg, hout⟩
        · refine ⟨ha, hf, hprec, htw, hrv, hpw,
            by dsimp only; rw [htw]; linarith,
            Or.inl ⟨h1, h2, h3, by dsimp only; rw [htw]; linarith,
              by dsimp only; omega, Or.inl ⟨hrvg, ?_⟩⟩⟩
          dsimp only
          rw [hrvg]
          simp only [Bool.false_eq_true, if_false]
          rw [hf, hprec, hout]
          exact (take_push _ _ _ (passSamples_get_fwd f R b s.progress (by omega))).symm
        · refine ⟨ha, hf, hprec, htw, hrv, hpw,
            by dsimp only; rw [htw]; linarith,
            Or.inl ⟨h1, h2, h3, by dsimp only; rw [htw]; linarith,
              by dsimp only; omega, Or.inr ⟨hb, hrvg, ?_⟩⟩⟩
          dsimp only
          rw [hrvg]
          simp only [if_pos rfl]
          rw [hf, hprec, hout, hb]
          rw [show R + 1 + (s.progress + 1) = (R + 1 + s.progress) + 1 by omega]
          exact (take_push _ _ _ (passSamples_get_rev f R s.progress (by omega))).symm
  · -- completed: the connection is gone, ticks are ignored
    simp only [applyEvent]
    rw [if_neg (by simp [h2])]
    simp only [List.append_nil]
    exact ⟨ha, hf, hprec, htw, hrv, hpw, hte0, Or.inr ⟨h1, h2, h3, h4, h5⟩⟩

theorem cycleInv_run (f : ℚ → ℚ) (R : ℕ) (tt : ℚ) (b : Bool)
    (hR : 0 < R) (htt : 0 < tt) (s : CTState) (out : List ℚ) (dts : List ℚ)
    (hdts : ∀ dt ∈ dts, 0 ≤ dt ∧ dt ≤ tt) (h : CycleInv f R tt b s out) :
    CycleInv f R tt b (runTicks s dts).1 (out ++ (runTicks s dts).2.1) := by
  induction dts generalizing s out with
  | nil => simpa [runTicks, runEvents] using h
  | cons dt dts ih =>
      have hstep := cycleInv_step f R tt b hR htt s out dt
        (hdts dt (List.mem_cons_self dt dts)).1 (hdts dt (List.mem_cons_self dt dts)).2 h
      have hrest := ih (applyEvent s (TEvent.tick dt)).1
        (out ++ (applyEvent s (TEvent.tick dt)).2.1)
        (fun d hd => hdts d (List.mem_cons_of_mem dt hd)) hstep
      show CycleInv f R tt b (runEvents (applyEvent s (TEvent.tick dt)).1
          (dts.map TEvent.tick)).1
        (out ++ ((applyEvent s (TEvent.tick dt)).2.1 ++
          (runEvents (applyEvent s (TEvent.tick dt)).1 (dts.map TEvent.tick)).2.1))
      rw [← List.append_assoc]
      exact hrest

/-- C1 (amended): a forward-only single pass (`reverses = false`,
`repeatCount = 0`, i.e. repeat counter 1), freshly playing, driven by ticks
of at most one sample duration each: if the run ends `Completed`, the samples
handed to the blend primitive are exactly `easing(i/R)` for
`i = 0, 1, ..., R` — that is `R + 1` samples, one more than the claimed `R`. -/
theorem c1_forward_pass_samples (f : ℚ → ℚ) (R : ℕ) (D : ℚ) (s : CTState)
    (dts : List ℚ) (hR : 0 < R) (hD : 0 < D)
    (htw : s.tweenTime = D / (R : ℚ)) (hf : s.easing = f) (hprec : s.precision = R)
    (hrv : s.reverses = false) (hrvg : s.reversing = false) (ha : s.active = true)
    (hcn : s.connected = true) (hpw : s.pendingWait = none)
    (hpb : s.PlaybackState = PlayState.Playing) (hrr : s.repeatsRemaining = 1)
    (hpr : s.progress = 0) (hte : s.timeElapsed = 0)
    (hdts : ∀ dt ∈ dts, 0 ≤ dt ∧ dt ≤ D / (R : ℚ)) :
    (runTicks s dts).1.PlaybackState = PlayState.Completed →
      (runTicks s dts).2.1 = fwdSamples f R ∧
      (runTicks s dts).2.1.length = R + 1 := by
  have htt : 0 < D / (R : ℚ) := by
    apply div_pos hD
    exact_mod_cast hR
  have hinv : CycleInv f R (D / (R : ℚ)) false s [] :=
    ⟨ha, hf, hprec, htw, hrv, hpw, le_of_eq hte.symm,
     Or.inl ⟨hpb, hcn, hrr, by rw [hte]; exact htt, by omega,
       Or.inl ⟨hrvg, by rw [hpr]; simp⟩⟩⟩
  have hrun := cycleInv_run f R (D / (R : ℚ)) false hR htt s [] dts hdts hinv
  rw [List.nil_append] at hrun
  obtain ⟨-, -, -, -, -, -, -, hcase⟩ := hrun
  intro hcpl
  rcases hcase with ⟨h1, -⟩ | ⟨-, -, -, -, hout⟩
  · rw [hcpl] at h1; simp at h1
  · have hfwd : passSamples f R false = fwdSamples f R := by
      simp [passSamples]
    rw [hout, hfwd]
    exact ⟨rfl, fwdSamples_length f R⟩

/- C1, counterexample.  Resolution 2, duration 1, linear easing, ticks of one
half second summing to 2 ≥ 1: the run reaches `Completed` having emitted the
3 shaped samples 0, 1/2, 1 — that is R + 1 = 3 samples, not R = 2. -/
unseal Rat.add Rat.mul Rat.inv Rat.sub in
theorem c1_forward_pass_samples_cex :
    ([(1 : ℚ)/2, 1/2, 1/2, 1/2].sum = 2 ∧ (1 : ℚ) ≤ 2) ∧
    (runTicks exPlaying [1/2, 1/2, 1/2, 1/2]).1.PlaybackState = PlayState.Completed ∧
    (runTicks exPlaying [1/2, 1/2, 1/2, 1/2]).2.1 = [0, 1/2, 1] ∧
    (runTicks exPlaying [1/2, 1/2, 1/2, 1/2]).2.1.length ≠ 2 := by
  refine ⟨⟨by decide, by decide⟩, by decide, by decide, by decide⟩

/- C1, witness: the same concrete run, pushed through the theorem. -/
unseal Rat.add Rat.mul Rat.inv Rat.sub in
theorem c1_forward_pass_samples_witness :
    (runTicks exPlaying [1/2, 1/2, 1/2, 1/2]).2.1.length = 2 + 1 :=
  (c1_forward_pass_samples (fun x => x) 2 1 exPlaying [1/2, 1/2, 1/2, 1/2]
    (by decide) (by decide) (by decide) rfl (by decide) (by decide)
    (by decide) (by decide) (by decide) (by decide) (by decide) (by decide)
    (by decide) (by decide) (by decide) (by decide)).2

section InterpZero

theorem zipWith_lerpQ_zero (xs ys : List ℚ) (h : xs.length = ys.length) :
    List.zipWith (lerpQ 0) xs ys = xs := by
  induction xs generalizing ys with
  | nil => simp
  | cons x xs ih =>
      cases ys with
      | nil => simp at h
      | cons y ys =>
          simp only [List.length_cons, Nat.add_right_cancel_iff] at h
          simp only [List.zipWith_cons_cons]
          rw [ih ys h]
          simp [lerpQ]

theorem i16_intCast (z : ℤ) : i16 ((z : ℤ) : ℚ) = z := by
  unfold i16
  rw [Int.floor_int_add]
  have : ⌊(1 / 2 : ℚ)⌋ = 0 := by
    rw [Int.floor_eq_zero_iff]
    constructor <;> norm_num
  rw [this, add_zero]

theorem interpStep_zero (i t : TValue) (hm : matchedVal i t = true) :
    interpStep 0 (some i) t = some i := by
  cases i with
  | native k a =>
      cases t <;> simp [matchedVal] at hm
      case native k' bl =>
        obtain ⟨hk, hl⟩ := hm
        subst hk
        simp [interpStep, zipWith_lerpQ_zero a bl hl]
  | num a =>
      cases t <;> simp [matchedVal] at hm
      case num b => simp [interpStep, lerpQ]
  | boolean a =>
      cases t <;> simp [matchedVal] at hm
      case boolean b => simp [interpStep]
  | rect a1 a2 a3 a4 =>
      cases t <;> simp [matchedVal] at hm
      case rect b1 b2 b3 b4 => simp [interpStep, lerpQ]
  | udim a1 a2 =>
      cases t <;> simp [matchedVal] at hm
      case udim b1 b2 => simp [interpStep, lerpQ]
  | vector2int16 a1 a2 =>
      cases t <;> simp [matchedVal] at hm
      case vector2int16 b1 b2 =>
        simp [interpStep, lerpQ, i16_intCast]
  | unsupported tag => cases t <;> simp [matchedVal] at hm

theorem lookupTV_of_mem (l : List (String × TValue)) (k : String) (v : TValue)
    (hnd : (l.map Prod.fst).Nodup) (hm : (k, v) ∈ l) : lookupTV l k = some v := by
  induction l with
  | nil => simp at hm
  | cons hd tl ih =>
      obtain ⟨k0, v0⟩ := hd
      simp only [List.map_cons, List.nodup_cons] at hnd
      rw [List.mem_cons] at hm
      rcases hm with heq | htl
      · rw [Prod.mk.injEq] at heq
        obtain ⟨hk, hv⟩ := heq
        subst hk; subst hv
        simp [lookupTV]
      · have hk0 : ¬ (k0 = k) := by
          intro hh
          subst hh
          exact hnd.1 (List.mem_map_of_mem Prod.fst htl)
        rw [lookupTV, if_neg hk0]
        exact ih hnd.2 htl

theorem alignedOk_keys (init tp : List (String × TValue))
    (hal : alignedOk init tp = true) : init.map Prod.fst = tp.map Prod.fst := by
  induction init generalizing tp with
  | nil => cases tp with
    | nil => rfl
    | cons hd tl => simp [alignedOk] at hal
  | cons hd tl ih =>
      obtain ⟨k, i⟩ := hd
      cases tp with
      | nil => simp [alignedOk] at hal
      | cons hd' tl' =>
          obtain ⟨k', t⟩ := hd'
          simp only [alignedOk, Bool.and_eq_true, decide_eq_true_eq] at hal
          obtain ⟨⟨hk, -⟩, hrest⟩ := hal
          subst hk
          simp [ih tl' hrest]

theorem synthProps_zero_aux (initBig init tp : List (String × TValue))
    (hal : alignedOk init tp = true)
    (hlk : ∀ k v, (k, v) ∈ init → lookupTV initBig k = some v) :
    synthProps 0 initBig tp = init := by
  induction tp generalizing init with
  | nil =>
      cases init with
      | nil => rfl
      | cons hd tl => simp [alignedOk] at hal
  | cons hd ts ih =>
      obtain ⟨k, t⟩ := hd
      cases init with
      | nil => simp [alignedOk] at hal
      | cons hd' is =>
          obtain ⟨k0, i0⟩ := hd'
          simp only [alignedOk, Bool.and_eq_true, decide_eq_true_eq] at hal
          obtain ⟨⟨hk, hmv⟩, hrest⟩ := hal
          subst hk
          rw [synthProps, hlk k0 i0 (List.mem_cons_self _ _), interpStep_zero i0 t hmv]
          rw [ih is hrest (fun k v hm => hlk k v (List.mem_cons_of_mem _ hm))]

/-- Synthesizing at shaped progress `0` returns exactly the initial snapshot,
whenever every target property is matched by a same-typed supported initial
value. -/
theorem getCurrentProperties_zero (s : CTState)
    (hal : alignedOk s.initial s.targetProperties = true)
    (hnd : (s.targetProperties.map Prod.fst).Nodup) :
    getCurrentProperties s 0 = s.initial := by
  have hndi : (s.initial.map Prod.fst).Nodup := by
    rw [alignedOk_keys s.initial s.targetProperties hal]
    exact hnd
  exact synthProps_zero_aux s.initial s.initial s.targetProperties hal
    (fun k v hm => lookupTV_of_mem s.initial k v hndi hm)

end InterpZero

theorem revSamples_split (f : ℚ → ℚ) (R : ℕ) :
    revSamples f R =
      (List.range R).map (fun i : ℕ => f (1 - (i : ℚ) / (R : ℚ))) ++
        [f (1 - (R : ℚ) / (R : ℚ))] := by
  rw [revSamples, List.range_succ, List.map_append]
  rfl

theorem fwdRev_getLast (f : ℚ → ℚ) (R : ℕ) :
    (fwdSamples f R ++ revSamples f R).getLast? =
      some (f (1 - (R : ℚ) / (R : ℚ))) := by
  rw [revSamples_split, ← List.append_assoc, List.getLast?_concat]

/-- C9: with `reverses = true` (single pass-pair, repeat counter 1), under
ticks of at most one sample duration the emitted shaped progresses are always
a prefix of the forward sequence `easing(i/R)` followed by the reverse
sequence `easing(1 - i/R)` (`i = 0..R` each); when the run completes, the
full pass-pair has been emitted, the last sample is `easing(0)`, and — when
the easing fixes `0` and every target property has a matched supported
initial value — synthesizing at that final shaped progress returns exactly
the initial snapshot. -/
theorem c9_reverse_symmetry (f : ℚ → ℚ) (R : ℕ) (D : ℚ) (s : CTState)
    (dts : List ℚ) (hR : 0 < R) (hD : 0 < D)
    (htw : s.tweenTime = D / (R : ℚ)) (hf : s.easing = f) (hprec : s.precision = R)
    (hrv : s.reverses = true) (hrvg : s.reversing = false) (ha : s.active = true)
    (hcn : s.connected = true) (hpw : s.pendingWait = none)
    (hpb : s.PlaybackState = PlayState.Playing) (hrr : s.repeatsRemaining = 1)
    (hpr : s.progress = 0) (hte : s.timeElapsed = 0)
    (hdts : ∀ dt ∈ dts, 0 ≤ dt ∧ dt ≤ D / (R : ℚ)) :
    (∃ n, (runTicks s dts).2.1 = (fwdSamples f R ++ revSamples f R).take n) ∧
    ((runTicks s dts).1.PlaybackState = PlayState.Completed →
      (runTicks s dts).2.1 = fwdSamples f R ++ revSamples f R ∧
      (runTicks s dts).2.1.getLast? = some (f 0) ∧
      (f 0 = 0 → alignedOk s.initial s.targetProperties = true →
        (s.targetProperties.map Prod.fst).Nodup →
        getCurrentProperties s ((runTicks s dts).2.1.getLastD 0) = s.initial)) := by
  have htt : 0 < D / (R : ℚ) := by
    apply div_pos hD
    exact_mod_cast hR
  have hps : passSamples f R true = fwdSamples f R ++ revSamples f R := rfl
  have hdiv : (1 : ℚ) - (R : ℚ) / (R : ℚ) = 0 := by
    rw [div_self (by exact_mod_cast hR.ne')]
    ring
  have hinv : CycleInv f R (D / (R : ℚ)) true s [] :=
    ⟨ha, hf, hprec, htw, hrv, hpw, le_of_eq hte.symm,
     Or.inl ⟨hpb, hcn, hrr, by rw [hte]; exact htt, by omega,
       Or.inl ⟨hrvg, by rw [hpr]; simp⟩⟩⟩
  have hrun := cycleInv_run f R (D / (R : ℚ)) true hR htt s [] dts hdts hinv
  rw [List.nil_append] at hrun
  obtain ⟨-, -, -, -, -, -, -, hcase⟩ := hrun
  constructor
  · rcases hcase with ⟨-, -, -, -, -, ⟨-, hout⟩ | ⟨-, -, hout⟩⟩ | ⟨-, -, -, -, hout⟩
    · exact ⟨_, by rw [hout, hps]⟩
    · exact ⟨_, by rw [hout, hps]⟩
    · exact ⟨(fwdSamples f R ++ revSamples f R).length,
        by rw [hout, hps, List.take_length]⟩
  · intro hcpl
    rcases hcase with ⟨h1, -⟩ | ⟨-, -, -, -, hout⟩
    · rw [hcpl] at h1; simp at h1
    · have hsam : (runTicks s dts).2.1 = fwdSamples f R ++ revSamples f R := by
        rw [hout, hps]
      have hlast : (runTicks s dts).2.1.getLast? = some (f 0) := by
        rw [hsam, fwdRev_getLast, hdiv]
      refine ⟨hsam, hlast, ?_⟩
      intro hf0 hal hnd
      have hlastD : (runTicks s dts).2.1.getLastD 0 = f 0 := by
        rw [List.getLastD_eq_getLast?, hlast]
        rfl
      rw [hlastD, hf0]
      exact getCurrentProperties_zero s hal hnd

/-- The concrete tween at resolution 1 with the reverse pass enabled. -/
def ex9Args : CTorArgs := { exTweenArgs with reversesOpt := some true, precision := 1 }

/- C9, witness: the reversing tween at resolution 1 emits 0, 1, 1, 0 over
five unit ticks and, at the final shaped progress, synthesis returns the
initial snapshot. -/
unseal Rat.add Rat.mul Rat.inv Rat.sub in
theorem c9_reverse_symmetry_witness :
    (runTicks (playM (mkOkCT ex9Args)) [1, 1, 1, 1, 1]).2.1 =
      fwdSamples (fun x => x) 1 ++ revSamples (fun x => x) 1 ∧
    getCurrentProperties (playM (mkOkCT ex9Args))
      ((runTicks (playM (mkOkCT ex9Args)) [1, 1, 1, 1, 1]).2.1.getLastD 0) =
      (playM (mkOkCT ex9Args)).initial := by
  have h := (c9_reverse_symmetry (fun x => x) 1 1 (playM (mkOkCT ex9Args))
    [1, 1, 1, 1, 1] (by decide) (by decide) (by decide) rfl (by decide)
    (by decide) (by decide) (by decide) (by decide) (by decide) (by decide)
    (by decide) (by decide) (by decide) (by decide)).2 (by decide)
  exact ⟨h.1, h.2.2 rfl (by decide) (by decide)⟩
